import Mathlib

/-!
Verification of the core `.dat` metadata / bit-depth / range-scaling subsystem of
the `rawtools` package (Python), via a shallow embedding in Lean 4.

The embedding models, faithfully to the Python source:
  * `rawtools/utils/dat.py`: `format_from_bitdepth`, `bitdepth_from_format`,
    `determine_bit_depth`, the private line parsers (`__parse_object_filename`,
    `__parse_resolution`, `__parse_slice_thickness`, `__parse_format`,
    `__parse_object_model`, `__is_dragonfly_dat_format`), `read` and `write`.
  * `rawtools/convert/utils.py`: `linear_scale` / `scale`.
  * `rawtools/convert/image/utils.py`: the pixel transformation of `array_to_image`.
  * `rawtools/convert/image/raw.py`: the decode-dtype selection of `Raw.__init__`
    and the per-chunk transformation of `Raw.to_raw`.
  * `rawtools/convert/image/slices.py`: `Slices.paths` ordering, `Slices.__init__`,
    the byte concatenation of `Slices.to_raw`, and `fname2idx`.

Numbers are embedded as `Nat`/`Int`/`Rat` (machine floats are modelled as exact
rationals; claims are read "to float precision").  Text is embedded as `List Char`.
Fallible Python code (raising) is embedded with `Except String`.
-/

namespace Rawtools

/-! ### Python character classes (ASCII fragment, as used by `re` on this data) -/

/-- Python `\s` (and `str.strip`'s default set), ASCII fragment. -/
def pySpace (c : Char) : Bool :=
  c = ' ' || c = '\t' || c = '\n' || c = '\x0d' || c = '\x0b' || c = '\x0c'

/-- Python `\d`, ASCII fragment: '0' (48) through '9' (57). -/
def pyDigit (c : Char) : Bool := 48 ≤ c.toNat && c.toNat ≤ 57

/-- Python `\w`, ASCII fragment: letters, digits, underscore. -/
def pyWord (c : Char) : Bool :=
  (97 ≤ c.toNat && c.toNat ≤ 122) || (65 ≤ c.toNat && c.toNat ≤ 90) ||
    pyDigit c || c = '_'

/-- ASCII lower-casing, for `re.IGNORECASE` literal matching. -/
def lcase (c : Char) : Char :=
  if 65 ≤ c.toNat && c.toNat ≤ 90 then Char.ofNat (c.toNat + 32) else c

/-- Python `str.strip()` (ASCII whitespace). -/
def pyStrip (l : List Char) : List Char :=
  ((l.dropWhile pySpace).reverse.dropWhile pySpace).reverse

/-! ### `dat.format_from_bitdepth` / `dat.bitdepth_from_format`
(`rawtools/utils/dat.py`, lines 32-73) -/

/-- `dat.format_from_bitdepth`: numpy dtype name to NSI format token.  The
`known_types` dict of the source maps the seven keys below; `name in known_types`
followed by `known_types[name]` is key-equality lookup, embedded as an if-chain.
Raises `ValueError` for names outside the dict. -/
def format_from_bitdepth (name : String) : Except String String :=
  if name = "uint8" then .ok "UCHAR"
  else if name = "uint16" then .ok "USHORT"
  else if name = "float32" then .ok "FLOAT"
  else if name = "float" then .ok "FLOAT"
  else if name = "8" then .ok "UCHAR"
  else if name = "16" then .ok "USHORT"
  else if name = "32" then .ok "FLOAT"
  else .error ("'" ++ name ++ "' is not a known bitdepth")

/-- `dat.bitdepth_from_format`: NSI format token to numpy dtype name; the
`known_types` dict has exactly the three keys below.  Raises `ValueError`
for tokens outside the dict. -/
def bitdepth_from_format (format : String) : Except String String :=
  if format = "UCHAR" then .ok "uint8"
  else if format = "USHORT" then .ok "uint16"
  else if format = "FLOAT" then .ok "float32"
  else .error ("'" ++ format ++ "' is not a known format")

/-! ### `dat.determine_bit_depth` (`rawtools/utils/dat.py`, lines 76-120)

The file system access (`os.stat(fpath).st_size`) is abstracted into the
`filesize` argument; the dimension triple is the `dims` argument.  The returned
pair carries the dtype string and whether a corruption warning was logged;
the fatal `Exception` branch is an `Except.error`. -/

def determine_bit_depth (filesize : ℕ) (dims : ℕ × ℕ × ℕ) :
    Except String (String × Bool) :=
  let minimum_size := dims.1 * dims.2.1 * dims.2.2
  let expected_uint8_fsize := minimum_size
  let expected_uint16_fsize := minimum_size * 2
  let expected_float32_fsize := minimum_size * 4
  if filesize < expected_uint8_fsize then .ok ("uint8", true)
  else if filesize = expected_uint8_fsize then .ok ("uint8", false)
  else if filesize = expected_uint16_fsize then .ok ("uint16", false)
  else if filesize = expected_float32_fsize then .ok ("float32", false)
  else if expected_uint8_fsize < filesize && filesize < expected_uint16_fsize then
    .ok ("uint16", true)
  else if expected_uint16_fsize < filesize && filesize < expected_float32_fsize then
    .ok ("float32", true)
  else if expected_float32_fsize < filesize then
    .error "Unable to determine bit-depth of volume"
  else .error "Unable to determine bitdepth"

/-! ### `scale` / `linear_scale` (`rawtools/convert/utils.py`)

`linear_scale(x, a, b, c, d) = (x - a) / (b - a) * (d - c) + c`.  On Python
scalars, `b == a` raises `ZeroDivisionError`; this is the `Except.error` case.
Values are exact rationals. -/

def linear_scale (x a b c d : ℚ) : Except String ℚ :=
  if b - a = 0 then .error "ZeroDivisionError"
  else .ok ((x - a) / (b - a) * (d - c) + c)

/-- `scale(..., mode='linear')` dispatches to `linear_scale`. -/
def scale (x a b c d : ℚ) : Except String ℚ := linear_scale x a b c d

end Rawtools

namespace Rawtools

/-! ### numpy dtype helpers and `astype` semantics

`np.dtype(d).itemsize`, `np.iinfo` bounds, and the value-level semantics of
`ndarray.astype(d)`: conversion to an integer dtype truncates the float toward
zero and wraps modulo 2^bits (the documented wraparound behaviour); conversion
to float32 is value-preserving in the rational model. -/

/-- Bit width of the two supported unsigned integer dtypes (`none` for float32). -/
def dtype_bits : String → Option ℕ
  | "uint8" => some 8
  | "uint16" => some 16
  | _ => none

/-- `np.dtype(d).itemsize` for the three supported dtypes. -/
def dtype_itemsize : String → ℕ
  | "uint8" => 1
  | "uint16" => 2
  | "float32" => 4
  | _ => 0

/-- Truncation toward zero of a rational (C float-to-int conversion). -/
def ratTrunc (q : ℚ) : ℤ := if 0 ≤ q then ⌊q⌋ else ⌈q⌉

/-- Value semantics of `ndarray.astype(dtype)` on one element. -/
def astype (dtype : String) (q : ℚ) : ℚ :=
  match dtype_bits dtype with
  | some bits => ((ratTrunc q % (2 ^ bits : ℤ) : ℤ) : ℚ)
  | none => q

/-- `np.iinfo(dtype).min` / `np.iinfo(dtype).max` for the unsigned dtypes,
`np.finfo('float32').min/max` for float32 (exact values of the IEEE extremes). -/
def dtype_min : String → ℚ
  | "float32" => -(2 ^ 128 - 2 ^ 104)
  | _ => 0

def dtype_max : String → ℚ
  | "uint8" => 255
  | "uint16" => 65535
  | "float32" => 2 ^ 128 - 2 ^ 104
  | _ => 0

/-- `np.issubdtype(np.dtype(d), np.integer)` for the three supported dtypes. -/
def dtype_is_integer (dtype : String) : Bool := (dtype_bits dtype).isSome

/-! ### the pixel transformation of `array_to_image`
(`rawtools/convert/image/utils.py`, lines 19-63)

For one pixel `x` of a slice with dtype `srcDtype`, destination image dtype
`dstDtype` and the caller-supplied bounds: when the dtypes differ the slice is
scaled then explicitly floored (`np.floor`), and in all cases the final write
casts with `.astype(image_bitdepth)`. -/

def array_to_image_pixel (srcDtype dstDtype : String)
    (oldMin oldMax newMin newMax x : ℚ) : Except String ℚ :=
  if srcDtype ≠ dstDtype then
    (linear_scale x oldMin oldMax newMin newMax).map fun v =>
      astype dstDtype ((⌊v⌋ : ℤ) : ℚ)
  else .ok (astype dstDtype x)

/-! ### the per-chunk transformation of `Raw.to_raw` (no-reshape branch)
(`rawtools/convert/image/raw.py`, lines 344-361)

`chunk_bytes = scale(chunk, old_min, old_max, new_min, new_max).astype(bitdepth)`:
scaling followed directly by the cast, with no intervening floor. -/

def to_raw_pixel (dstDtype : String) (oldMin oldMax newMin newMax x : ℚ) :
    Except String ℚ :=
  (linear_scale x oldMin oldMax newMin newMax).map fun v => astype dstDtype v

/-- The source-range selection shared by `Raw.to_slices` and `Raw.to_raw`:
type-implied bounds for integer sources, the scanned `minmax` for float sources. -/
def old_bounds (srcDtype : String) (minmax : ℚ × ℚ) : ℚ × ℚ :=
  if dtype_is_integer srcDtype then (dtype_min srcDtype, dtype_max srcDtype)
  else minmax

/-- The destination-range selection: type-implied bounds. -/
def new_bounds (dstDtype : String) : ℚ × ℚ := (dtype_min dstDtype, dtype_max dstDtype)

end Rawtools

namespace Rawtools

/-! ### `Raw.__init__` and `Raw.slices` (`rawtools/convert/image/raw.py`)

`Raw.__init__` (lines 152-166): after loading the companion `.dat`, the decode
dtype is `self.bitdepth = dat.bitdepth_from_format(self.metadata.format)` — the
*declared* format; at the end, `dat.determine_bit_depth(self.path, self.dims)`
is invoked purely as a validity check ("# Check for invalid data") whose return
value is discarded (its fatal branch propagates as an exception).

`Raw.slices` (lines 60-82) reads `z` chunks of `x*y` elements each, decoded
with `dtype=self.bitdepth`.  The byte stream is the `bytes` argument; each
element is the little-endian value of `itemsize` consecutive bytes. -/

/-- Parsed `.dat` metadata (the fields `Raw.__init__` consumes). -/
structure DatMeta where
  object_filename : List Char
  dimensions : ℕ × ℕ × ℕ
  thickness : ℚ × ℚ × ℚ
  format : String
  model : List Char
  deriving Repr, DecidableEq

/-- The attributes of a constructed `Raw` object used by decoding. -/
structure RawRec where
  x : ℕ
  y : ℕ
  z : ℕ
  bitdepth : String
  filesize : ℕ
  deriving Repr, DecidableEq

/-- `Raw.__init__` (decode-relevant fragment): declared-format-derived
`bitdepth`, then `determine_bit_depth` as a discarded validity check. -/
def Raw_init (meta : DatMeta) (filesize : ℕ) : Except String RawRec :=
  match bitdepth_from_format meta.format with
  | .error e => .error e
  | .ok bitdepth =>
    match determine_bit_depth filesize meta.dimensions with
    | .error e => .error e
    | .ok _ =>
      .ok { x := meta.dimensions.1, y := meta.dimensions.2.1, z := meta.dimensions.2.2,
            bitdepth := bitdepth, filesize := filesize }

/-- Split a list into contiguous chunks of `k` elements (`np.fromfile` with
`count=k` called repeatedly). -/
def chunkList {α : Type} (k : ℕ) (l : List α) : List (List α) :=
  if _h : k = 0 ∨ l.length = 0 then []
  else l.take k :: chunkList k (l.drop k)
termination_by l.length
decreasing_by
  rcases not_or.mp _h with ⟨hk, hl⟩
  simp only [List.length_drop]
  omega

/-- Decode a flat byte stream as unsigned words of `itemsize` bytes,
little-endian (numpy native order on the supported platforms). -/
def decode_words (itemsize : ℕ) (bytes : List ℕ) : List ℕ :=
  (chunkList itemsize bytes).map fun w => w.foldr (fun b acc => b + 256 * acc) 0

/-- `Raw.slices`: `z` slices of `x*y` elements, decoded with `dtype=self.bitdepth`. -/
def Raw_slices (r : RawRec) (bytes : List ℕ) : List (List ℕ) :=
  (chunkList (r.x * r.y) (decode_words (dtype_itemsize r.bitdepth) bytes)).take r.z

end Rawtools

namespace Rawtools

/-- C1 (counterexample): for dims (2,2,2) the voxel count is m = 8; a file of
4 bytes has size strictly between 0 and m*2 = 16 and is not an exact match,
yet `determine_bit_depth` returns 'uint8' (with a corruption warning), not the
'uint16' the claim asserts. -/
theorem determine_bit_depth_small_file_is_uint8 :
    (0 < 4 ∧ 4 < 2 * 2 * 2 * 2 ∧ 4 ≠ 2 * 2 * 2) ∧
      determine_bit_depth 4 (2, 2, 2) = .ok ("uint8", true) ∧ "uint8" ≠ "uint16" := by
  refine ⟨by omega, ?_, by decide⟩
  rfl

/-- C1 (amended): exact sizes m, m*2, m*4 yield uint8/uint16/float32 with no
warning; a size strictly below m yields uint8 with a corruption warning (not
uint16); a size strictly between m and m*2 yields uint16 with a warning; a size
strictly between m*2 and m*4 yields float32 with a warning; a size greater than
m*4 is a fatal error. -/
theorem determine_bit_depth_cases (x y z fs : ℕ) (hm : 0 < x * y * z) :
    (fs = x * y * z → determine_bit_depth fs (x, y, z) = .ok ("uint8", false)) ∧
    (fs = x * y * z * 2 → determine_bit_depth fs (x, y, z) = .ok ("uint16", false)) ∧
    (fs = x * y * z * 4 → determine_bit_depth fs (x, y, z) = .ok ("float32", false)) ∧
    (fs < x * y * z → determine_bit_depth fs (x, y, z) = .ok ("uint8", true)) ∧
    (x * y * z < fs → fs < x * y * z * 2 →
      determine_bit_depth fs (x, y, z) = .ok ("uint16", true)) ∧
    (x * y * z * 2 < fs → fs < x * y * z * 4 →
      determine_bit_depth fs (x, y, z) = .ok ("float32", true)) ∧
    (x * y * z * 4 < fs →
      determine_bit_depth fs (x, y, z) = .error "Unable to determine bit-depth of volume") := by
  simp only [determine_bit_depth]
  set m := x * y * z with hmdef
  refine ⟨?_, ?_, ?_, ?_, ?_, ?_, ?_⟩ <;> intros h1
  · rw [if_neg (by omega), if_pos h1]
  · rw [if_neg (by omega), if_neg (by omega), if_pos h1]
  · rw [if_neg (by omega), if_neg (by omega), if_neg (by omega), if_pos h1]
  · rw [if_pos h1]
  · intro h2
    rw [if_neg (by omega), if_neg (by omega), if_neg (by omega), if_neg (by omega),
      if_pos (by simp only [decide_eq_true_eq, Bool.and_eq_true]; omega)]
  · intro h2
    rw [if_neg (by omega), if_neg (by omega), if_neg (by omega), if_neg (by omega),
      if_neg (by simp only [decide_eq_true_eq, Bool.and_eq_true]; omega),
      if_pos (by simp only [decide_eq_true_eq, Bool.and_eq_true]; omega)]
  · rw [if_neg (by omega), if_neg (by omega), if_neg (by omega), if_neg (by omega),
      if_neg (by simp only [decide_eq_true_eq, Bool.and_eq_true]; omega),
      if_neg (by simp only [decide_eq_true_eq, Bool.and_eq_true]; omega),
      if_pos (by omega)]

/-- Witness for `determine_bit_depth_cases` at dims (10,11,12). -/
theorem determine_bit_depth_cases_witness :
    determine_bit_depth 2640 (10, 11, 12) = .ok ("uint16", false) :=
  (determine_bit_depth_cases 10 11 12 2640 (by decide)).2.1 (by decide)

end Rawtools

namespace Rawtools

/-- C7 (counterexample): `format_from_bitdepth` accepts the alias '8' — an
input outside the three mapped dtype names — and returns 'UCHAR' instead of
raising an "unknown type" error. -/
theorem format_from_bitdepth_accepts_alias :
    format_from_bitdepth "8" = .ok "UCHAR" ∧
      ("8" : String) ∉ (["uint8", "uint16", "float32"] : List String) :=
  ⟨rfl, by decide⟩

/-- C7 (amended): the two maps are bidirectional on
uint8↔UCHAR, uint16↔USHORT, float32↔FLOAT and raise for unmapped inputs,
but the forward direction additionally accepts the aliases
'float', '8', '16', '32' (mapping them to FLOAT/UCHAR/USHORT/FLOAT); the
reverse direction accepts exactly the three format tokens. -/
theorem format_maps_spec (name : String) :
    ((format_from_bitdepth name).isOk = true ↔
      name ∈ ["uint8", "uint16", "float32", "float", "8", "16", "32"]) ∧
    ((bitdepth_from_format name).isOk = true ↔ name ∈ ["UCHAR", "USHORT", "FLOAT"]) ∧
    (name ∈ ["uint8", "uint16", "float32"] →
      (format_from_bitdepth name).bind bitdepth_from_format = .ok name) ∧
    (name ∈ ["UCHAR", "USHORT", "FLOAT"] →
      (bitdepth_from_format name).bind format_from_bitdepth = .ok name) := by
  by_cases h1 : name = "uint8"
  · subst h1; exact ⟨by decide, by decide, fun _ => rfl, fun h => absurd h (by decide)⟩
  by_cases h2 : name = "uint16"
  · subst h2; exact ⟨by decide, by decide, fun _ => rfl, fun h => absurd h (by decide)⟩
  by_cases h3 : name = "float32"
  · subst h3; exact ⟨by decide, by decide, fun _ => rfl, fun h => absurd h (by decide)⟩
  by_cases h4 : name = "float"
  · subst h4
    exact ⟨by decide, by decide, fun h => absurd h (by decide), fun h => absurd h (by decide)⟩
  by_cases h5 : name = "8"
  · subst h5
    exact ⟨by decide, by decide, fun h => absurd h (by decide), fun h => absurd h (by decide)⟩
  by_cases h6 : name = "16"
  · subst h6
    exact ⟨by decide, by decide, fun h => absurd h (by decide), fun h => absurd h (by decide)⟩
  by_cases h7 : name = "32"
  · subst h7
    exact ⟨by decide, by decide, fun h => absurd h (by decide), fun h => absurd h (by decide)⟩
  by_cases h8 : name = "UCHAR"
  · subst h8
    exact ⟨by decide, by decide, fun h => absurd h (by decide), fun _ => rfl⟩
  by_cases h9 : name = "USHORT"
  · subst h9
    exact ⟨by decide, by decide, fun h => absurd h (by decide), fun _ => rfl⟩
  by_cases h10 : name = "FLOAT"
  · subst h10
    exact ⟨by decide, by decide, fun h => absurd h (by decide), fun _ => rfl⟩
  refine ⟨?_, ?_, fun h => ?_, fun h => ?_⟩
  · simp [format_from_bitdepth, h1, h2, h3, h4, h5, h6, h7, Except.isOk, Except.toBool]
  · simp [bitdepth_from_format, h8, h9, h10, Except.isOk, Except.toBool]
  · simp [h1, h2, h3] at h
  · simp [h8, h9, h10] at h

/-- Witness for `format_maps_spec`: the uint16 round trip. -/
theorem format_maps_spec_witness :
    (format_from_bitdepth "uint16").bind bitdepth_from_format = .ok "uint16" :=
  (format_maps_spec "uint16").2.2.1 (by decide)

/-- C2 (counterexample): a Raw whose `.dat` declares FLOAT over an 8-byte file
with dims (2,2,2).  `determine_bit_depth` infers 'uint8', yet construction
succeeds with `bitdepth = "float32"` — the *declared* format, which is what
`slices`/`minmax` decode with.  Moreover a declared-vs-actual mismatch is not
always non-fatal: with declared UCHAR and a 33-byte file (> 4×voxel count),
construction raises. -/
theorem raw_init_uses_declared_format :
    Raw_init ⟨"x.raw".toList, (2, 2, 2), (1, 1, 1), "FLOAT", "DENSITY".toList⟩ 8 =
      .ok ⟨2, 2, 2, "float32", 8⟩ ∧
    determine_bit_depth 8 (2, 2, 2) = .ok ("uint8", false) ∧
    "float32" ≠ "uint8" ∧
    Raw_init ⟨"x.raw".toList, (2, 2, 2), (1, 1, 1), "UCHAR", "DENSITY".toList⟩ 33 =
      .error "Unable to determine bit-depth of volume" := by
  exact ⟨rfl, rfl, by decide, rfl⟩

/-- C2 (amended): the decode dtype of a constructed Raw is derived from the
*declared* metadata format (`bitdepth_from_format`), with `determine_bit_depth`
run only as a validity check: construction succeeds exactly when both succeed,
the inferred dtype is discarded, and `slices` decodes with the declared-derived
`bitdepth`. -/
theorem raw_init_declared_format_governs (meta : DatMeta) (filesize : ℕ) :
    (∀ r, Raw_init meta filesize = .ok r →
      bitdepth_from_format meta.format = .ok r.bitdepth ∧
      (r.x, r.y, r.z) = meta.dimensions ∧
      (determine_bit_depth filesize meta.dimensions).isOk = true ∧
      ∀ bytes, Raw_slices r bytes =
        (chunkList (r.x * r.y) (decode_words (dtype_itemsize r.bitdepth) bytes)).take r.z) ∧
    ((determine_bit_depth filesize meta.dimensions).isOk = false →
      ∀ r, Raw_init meta filesize ≠ .ok r) := by
  constructor
  · intro r hr
    cases hbd : bitdepth_from_format meta.format with
    | error e => simp [Raw_init, hbd] at hr
    | ok bd =>
      cases hdb : determine_bit_depth filesize meta.dimensions with
      | error e => simp [Raw_init, hbd, hdb] at hr
      | ok v =>
        simp only [Raw_init, hbd, hdb, Except.ok.injEq] at hr
        subst hr
        exact ⟨rfl, rfl, by simp [hdb, Except.isOk, Except.toBool], fun bytes => rfl⟩
  · intro hfail r hr
    cases hbd : bitdepth_from_format meta.format with
    | error e => simp [Raw_init, hbd] at hr
    | ok bd =>
      cases hdb : determine_bit_depth filesize meta.dimensions with
      | error e => simp [Raw_init, hbd, hdb] at hr
      | ok v => simp [hdb, Except.isOk, Except.toBool] at hfail

/-- Witness for `raw_init_declared_format_governs` at the FLOAT-declared Raw. -/
theorem raw_init_declared_format_governs_witness :
    bitdepth_from_format "FLOAT" = .ok "float32" ∧
    ((2 : ℕ), (2 : ℕ), (2 : ℕ)) = ((2, 2, 2) : ℕ × ℕ × ℕ) ∧
    (determine_bit_depth 8 ((2, 2, 2) : ℕ × ℕ × ℕ)).isOk = true ∧
    ∀ bytes, Raw_slices ⟨2, 2, 2, "float32", 8⟩ bytes =
      (chunkList (2 * 2) (decode_words (dtype_itemsize "float32") bytes)).take 2 :=
  (raw_init_declared_format_governs
    ⟨"x.raw".toList, (2, 2, 2), (1, 1, 1), "FLOAT", "DENSITY".toList⟩ 8).1
    ⟨2, 2, 2, "float32", 8⟩ rfl

end Rawtools

namespace Rawtools

/-- C5 (counterexample): on identical inputs (source float32, destination
uint8, bounds (0,510) → (0,255), value -1, scaled value -1/2), the slice-export
pixel path (`array_to_image`: scale, explicit `np.floor`, cast) yields 255,
while the raw-to-raw export path (`Raw.to_raw`: scale, cast — no floor)
truncates toward zero and yields 0.  The raw-to-raw export therefore does not
pass each scaled value through an explicit floor before the cast. -/
theorem to_raw_pixel_no_explicit_floor :
    to_raw_pixel "uint8" 0 510 0 255 (-1) = .ok 0 ∧
      array_to_image_pixel "float32" "uint8" 0 510 0 255 (-1) = .ok 255 := by
  have hs : ((-1 : ℚ) - 0) / (510 - 0) * (255 - 0) + 0 = -1/2 := by norm_num
  have hfloor : ⌊(-1/2 : ℚ)⌋ = -1 := by norm_num
  have hceil : ⌈(-1/2 : ℚ)⌉ = 0 := by norm_num
  constructor
  · simp only [to_raw_pixel, linear_scale, if_neg (by norm_num : ¬(510 - 0 : ℚ) = 0),
      Except.map, hs, astype, dtype_bits, ratTrunc, if_neg (by norm_num : ¬(0 : ℚ) ≤ -1/2),
      hceil]
    norm_num
  · simp only [array_to_image_pixel, if_pos (by decide : "float32" ≠ "uint8"),
      linear_scale, if_neg (by norm_num : ¬(510 - 0 : ℚ) = 0), Except.map, hs, hfloor,
      astype, dtype_bits, ratTrunc]
    have hc : ⌈(-1 : ℚ)⌉ = -1 := by
      rw [show ((-1 : ℚ)) = ((-1 : ℤ) : ℚ) by norm_num, Int.ceil_intCast]
    norm_num [hc]

/-- C5 (amended): the slice-export path applies an explicit floor before the
integer cast; the raw-to-raw export path applies no floor — its cast truncates
toward zero — but whenever the scaled value is nonnegative (as holds for every
source value within the computed source bounds, since the destination bounds of
an unsigned integer type start at 0) truncation equals flooring, so both paths
send a scaled value s to ⌊s⌋ wrapped into the destination type: 254.9 → 254,
never 255 and never round-to-nearest. -/
theorem export_pixel_floor_agreement (dstDtype srcDtype : String) (bits : ℕ)
    (hb : dtype_bits dstDtype = some bits) (a b c d x s : ℚ)
    (hs : linear_scale x a b c d = .ok s) (h0 : 0 ≤ s) (hsrc : srcDtype ≠ dstDtype) :
    to_raw_pixel dstDtype a b c d x = .ok (((⌊s⌋ % 2 ^ bits : ℤ) : ℚ)) ∧
      array_to_image_pixel srcDtype dstDtype a b c d x =
        .ok (((⌊s⌋ % 2 ^ bits : ℤ) : ℚ)) := by
  have htrunc : ratTrunc s = ⌊s⌋ := by simp only [ratTrunc, if_pos h0]
  have h0' : (0 : ℚ) ≤ ((⌊s⌋ : ℤ) : ℚ) := by exact_mod_cast Int.floor_nonneg.mpr h0
  have htrunc' : ratTrunc ((⌊s⌋ : ℤ) : ℚ) = ⌊s⌋ := by
    simp only [ratTrunc, if_pos h0', Int.floor_intCast]
  constructor
  · simp only [to_raw_pixel, hs, Except.map, astype, hb, htrunc]
  · simp only [array_to_image_pixel, if_pos hsrc, hs, Except.map, astype, hb, htrunc']

end Rawtools

namespace Rawtools

/-- Witness for `export_pixel_floor_agreement`: scaled value 254.9 becomes
⌊254.9⌋ = 254 on both export paths. -/
theorem export_pixel_floor_agreement_witness :
    to_raw_pixel "uint8" 0 1 0 1 (2549/10) = .ok (((⌊(2549/10 : ℚ)⌋ % 2 ^ 8 : ℤ) : ℚ)) ∧
      array_to_image_pixel "float32" "uint8" 0 1 0 1 (2549/10) =
        .ok (((⌊(2549/10 : ℚ)⌋ % 2 ^ 8 : ℤ) : ℚ)) := by
  have hs : linear_scale (2549/10) 0 1 0 1 = .ok (2549/10) := by
    simp only [linear_scale, if_neg (by norm_num : ¬(1 - 0 : ℚ) = 0), Except.ok.injEq]
    norm_num
  exact export_pixel_floor_agreement "uint8" "float32" 8 rfl 0 1 0 1 (2549/10) (2549/10)
    hs (by norm_num) (by decide)

/-- A pixel value representable in its dtype: an integer within the unsigned
range for uint8/uint16, any (rational) value for float32. -/
def valid_pixel (dtype : String) (x : ℚ) : Prop :=
  match dtype_bits dtype with
  | some bits => ∃ n : ℤ, x = (n : ℚ) ∧ 0 ≤ n ∧ n < 2 ^ bits
  | none => True

/-- C10: when the source array's dtype equals the requested output image
bit depth, `array_to_image` writes the pixel values unchanged — no range
scaling and no flooring — for arbitrary (even disagreeing) old/new bounds. -/
theorem array_to_image_same_dtype_identity (dtype : String)
    (oldMin oldMax newMin newMax x : ℚ) (hx : valid_pixel dtype x) :
    array_to_image_pixel dtype dtype oldMin oldMax newMin newMax x = .ok x := by
  have hastype : astype dtype x = x := by
    cases hbits : dtype_bits dtype with
    | none => simp only [astype, hbits]
    | some bits =>
      simp only [valid_pixel, hbits] at hx
      obtain ⟨n, rfl, h0, hlt⟩ := hx
      have h0' : (0 : ℚ) ≤ (n : ℚ) := by exact_mod_cast h0
      simp only [astype, hbits, ratTrunc, if_pos h0', Int.floor_intCast,
        Int.emod_eq_of_lt h0 hlt]
  simp only [array_to_image_pixel, if_neg (not_not_intro rfl), hastype]

/-- Witness for `array_to_image_same_dtype_identity`: a uint8 pixel of value 7
is exported to uint8 unchanged although the supplied bounds disagree. -/
theorem array_to_image_same_dtype_identity_witness :
    array_to_image_pixel "uint8" "uint8" 0 255 0 65535 7 = .ok 7 :=
  array_to_image_same_dtype_identity "uint8" 0 255 0 65535 7
    ⟨7, by norm_num, by decide, by decide⟩

end Rawtools

namespace Rawtools

/-! ### Decimal digit rendering and parsing

`str(n)` for a Python int and `int(s)` for a digit string, needed by
`dat.write`/`dat.read` and by filename index arithmetic.  The digit splitter
uses explicit fuel (`n` itself bounds the digit count) so that every function
here is structurally recursive and kernel-reducible. -/

def digitChar (d : ℕ) : Char := Char.ofNat (48 + d)

def digVal (c : Char) : ℕ := c.toNat - 48

/-- Little-endian digit list of `n`, with explicit fuel. -/
def natDigitsAux : ℕ → ℕ → List ℕ
  | 0, _ => []
  | _ + 1, 0 => []
  | fuel + 1, n + 1 => ((n + 1) % 10) :: natDigitsAux fuel ((n + 1) / 10)

/-- Little-endian digit list of `n` (empty for 0). -/
def natDigitsRev (n : ℕ) : List ℕ := natDigitsAux n n

/-- `str(n)` for a nonnegative Python int. -/
def renderNat (n : ℕ) : List Char :=
  if n = 0 then ['0'] else ((natDigitsRev n).reverse).map digitChar

/-- `int(s)` for a decimal digit string (the value regex captures feed to `int`). -/
def parseNat (cs : List Char) : ℕ := cs.foldl (fun a c => a * 10 + digVal c) 0

/-- Value of a little-endian digit list. -/
def valRev : List ℕ → ℕ
  | [] => 0
  | d :: ds => d + 10 * valRev ds

theorem natDigitsAux_eq_of_le : ∀ n fuel fuel', n ≤ fuel → n ≤ fuel' →
    natDigitsAux fuel n = natDigitsAux fuel' n := by
  intro n
  induction n using Nat.strong_induction_on with
  | _ n ih =>
    intro fuel fuel' hf hf'
    match n, fuel, fuel' with
    | 0, 0, 0 => rfl
    | 0, 0, _ + 1 => rfl
    | 0, _ + 1, 0 => rfl
    | 0, _ + 1, _ + 1 => rfl
    | m + 1, f + 1, f' + 1 =>
      simp only [natDigitsAux]
      exact congrArg _ (ih ((m + 1) / 10) (Nat.div_lt_self (Nat.succ_pos m) (by omega))
        f f' (by omega) (by omega))

theorem natDigitsRev_succ (m : ℕ) :
    natDigitsRev (m + 1) = ((m + 1) % 10) :: natDigitsRev ((m + 1) / 10) := by
  have hd : (m + 1) / 10 < m + 1 := Nat.div_lt_self (Nat.succ_pos m) (by omega)
  simp only [natDigitsRev, natDigitsAux]
  exact congrArg _ (natDigitsAux_eq_of_le ((m + 1) / 10) m ((m + 1) / 10)
    (by omega) le_rfl)

theorem natDigitsRev_lt_ten : ∀ n, ∀ d ∈ natDigitsRev n, d < 10 := by
  intro n
  induction n using Nat.strong_induction_on with
  | _ n ih =>
    match n with
    | 0 => intro d hd; simp [natDigitsRev, natDigitsAux] at hd
    | m + 1 =>
      rw [natDigitsRev_succ]
      intro d hd
      rcases List.mem_cons.mp hd with rfl | hmem
      · exact Nat.mod_lt _ (by omega)
      · exact ih ((m + 1) / 10) (Nat.div_lt_self (Nat.succ_pos m) (by omega)) d hmem

theorem valRev_natDigitsRev : ∀ n, valRev (natDigitsRev n) = n := by
  intro n
  induction n using Nat.strong_induction_on with
  | _ n ih =>
    match n with
    | 0 => rfl
    | m + 1 =>
      rw [natDigitsRev_succ, valRev,
        ih ((m + 1) / 10) (Nat.div_lt_self (Nat.succ_pos m) (by omega))]
      omega

theorem natDigitsRev_ne_nil (n : ℕ) (hn : 0 < n) : natDigitsRev n ≠ [] := by
  match n, hn with
  | m + 1, _ => rw [natDigitsRev_succ]; exact List.cons_ne_nil _ _

theorem natDigitsRev_length_le (n k : ℕ) (h : n < 10 ^ k) :
    (natDigitsRev n).length ≤ k := by
  induction k generalizing n with
  | zero =>
    interval_cases n
    simp [natDigitsRev, natDigitsAux]
  | succ k ih =>
    match n with
    | 0 => simp [natDigitsRev, natDigitsAux]
    | m + 1 =>
      rw [natDigitsRev_succ]
      simp only [List.length_cons]
      have : (m + 1) / 10 < 10 ^ k := by
        rw [Nat.div_lt_iff_lt_mul (by omega : 0 < 10)]
        calc m + 1 < 10 ^ (k + 1) := h
        _ = 10 ^ k * 10 := by ring
      exact Nat.succ_le_succ (ih _ this)

theorem digitChar_spec : ∀ d, d < 10 → digVal (digitChar d) = d ∧
    pyDigit (digitChar d) = true := by decide

theorem pyDigit_renderNat (n : ℕ) : ∀ c ∈ renderNat n, pyDigit c = true := by
  unfold renderNat
  split
  · intro c hc; simp at hc; subst hc; decide
  · intro c hc
    simp only [List.mem_map, List.mem_reverse] at hc
    obtain ⟨d, hd, rfl⟩ := hc
    exact (digitChar_spec d (natDigitsRev_lt_ten n d hd)).2

theorem renderNat_ne_nil (n : ℕ) : renderNat n ≠ [] := by
  unfold renderNat
  split
  · exact List.cons_ne_nil _ _
  · intro h
    rcases List.map_eq_nil_iff.mp h with h'
    have := natDigitsRev_ne_nil n (by omega)
    exact this (by simpa using List.reverse_eq_nil_iff.mp h')

/-- `parseNat` over an appended digit: peel from the right. -/
theorem parseNat_append_singleton (cs : List Char) (c : Char) :
    parseNat (cs ++ [c]) = parseNat cs * 10 + digVal c := by
  simp [parseNat, List.foldl_append]

theorem parseNat_map_digitChar_reverse : ∀ ds : List ℕ, (∀ d ∈ ds, d < 10) →
    parseNat (ds.reverse.map digitChar) = valRev ds := by
  intro ds
  induction ds with
  | nil => intro _; rfl
  | cons d ds ih =>
    intro hlt
    simp only [List.reverse_cons, List.map_append, List.map_cons, List.map_nil]
    rw [parseNat_append_singleton, ih (fun e he => hlt e (List.mem_cons_of_mem d he)),
      valRev, (digitChar_spec d (hlt d (List.mem_cons_self d ds))).1]
    ring

/-- Round trip: `int(str(n)) = n`. -/
theorem parseNat_renderNat (n : ℕ) : parseNat (renderNat n) = n := by
  unfold renderNat
  split
  · subst n; rfl
  · rw [show ((natDigitsRev n).reverse).map digitChar =
        ((natDigitsRev n).reverse).map digitChar from rfl,
      parseNat_map_digitChar_reverse (natDigitsRev n) (natDigitsRev_lt_ten n),
      valRev_natDigitsRev]

end Rawtools

namespace Rawtools

/-! ### `Slices` (`rawtools/convert/image/slices.py`)

`Slices.paths` (lines 83-88) collects the directory entries that satisfy
`is_slice` and returns `sorted(paths)` — plain lexicographic string order.
The `is_slice` filter (image probing, directory-prefix matching) is abstracted:
the model takes the already-matched filename list.  Python string comparison is
code-point lexicographic; Python `sorted` is the unique stable sort of a total
preorder, here realised as stable insertion sort. -/

/-- Python `<` on strings: code-point lexicographic. -/
def lexLt : List Char → List Char → Bool
  | _, [] => false
  | [], _ :: _ => true
  | a :: as, b :: bs =>
    if a.toNat < b.toNat then true
    else if b.toNat < a.toNat then false
    else lexLt as bs

/-- Stable insertion of `x` into a sorted list (`x` goes before equals). -/
def insertLe {α : Type} (le : α → α → Bool) (x : α) : List α → List α
  | [] => [x]
  | y :: ys => if le x y then x :: y :: ys else y :: insertLe le x ys

/-- Stable insertion sort: the behaviour of Python `sorted` for a total preorder. -/
def sortLe {α : Type} (le : α → α → Bool) : List α → List α
  | [] => []
  | x :: xs => insertLe le x (sortLe le xs)

/-- `Slices.paths`: `sorted(paths)` over the `is_slice`-matched entries. -/
def Slices_paths (names : List (List Char)) : List (List Char) :=
  sortLe (fun a b => !(lexLt b a)) names

/-- The attributes `Slices.__init__` (lines 32-37) assigns. -/
structure SlicesRec where
  height : ℕ
  width : ℕ
  count : ℕ
  bitdepth : String
  deriving Repr, DecidableEq

/-- `Slices.__init__`: reads only `self.paths[0]` (`cv2.imread`), taking its
shape and dtype; `paths[0]` on an empty match list raises `IndexError`.
`dtypeOf`/`shapeOf` model what `cv2.imread` reports per file. -/
def Slices_init (names : List (List Char)) (dtypeOf : List Char → String)
    (shapeOf : List Char → ℕ × ℕ) : Except String SlicesRec :=
  match Slices_paths names with
  | [] => .error "IndexError"
  | top :: rest =>
    .ok { height := (shapeOf top).1, width := (shapeOf top).2,
          count := (top :: rest).length, bitdepth := dtypeOf top }

/-- `Slices.to_raw` (lines 178-224): `for slice_ in self: ifp.write(slice_.tobytes())`
— slice bytes concatenated in `Slices.paths` order. -/
def Slices_to_raw_bytes (names : List (List Char))
    (contents : List Char → List ℕ) : List ℕ :=
  (Slices_paths names).flatMap contents

/-- `os.path.splitext(fname)[0]`: the path without its last extension. -/
def splitext_root (l : List Char) : List Char :=
  let rev := l.reverse
  let ext := rev.takeWhile (fun c => !(c = '.'))
  if ext.length = rev.length then l
  else if ext.length + 1 = rev.length then l
  else (rev.drop (ext.length + 1)).reverse

/-- `fname2idx` (slices.py, lines 352-366): `re.match(r'.*\D(\d+)$', bname)`
captures the maximal trailing digit run of the extension-stripped name,
provided it is nonempty and preceded by a non-digit character; otherwise -1. -/
def fname2idx (fname : List Char) : ℤ :=
  let bname := splitext_root fname
  let ds := (bname.reverse.takeWhile pyDigit).reverse
  if ds.isEmpty || ds.length = bname.length then -1
  else (parseNat ds : ℤ)

/-- C9 (counterexample): a directory of two matched slices reporting different
pixel bit-depths ('uint8' for `d_1.png`, 'uint16' for `d_2.png`).  Construction
does not raise: it succeeds and takes the first slice's depth. -/
theorem slices_init_mixed_depth_accepted :
    (fun n => if n = "d_1.png".toList then "uint8" else "uint16") "d_1.png".toList =
      "uint8" ∧
    (fun n => if n = "d_1.png".toList then "uint8" else "uint16") "d_2.png".toList =
      "uint16" ∧
    Slices_init ["d_1.png".toList, "d_2.png".toList]
      (fun n => if n = "d_1.png".toList then "uint8" else "uint16")
      (fun _ => (4, 4)) = .ok ⟨4, 4, 2, "uint8"⟩ := by
  exact ⟨by decide, by decide, rfl⟩

/-- C9 (amended): `Slices` construction performs no bit-depth consistency
check: it fails only when no slice matches (IndexError on `paths[0]`), and
otherwise succeeds with the height/width/dtype reported by the first slice in
sorted order, regardless of the other slices' dtypes. -/
theorem slices_init_spec (names : List (List Char)) (dtypeOf : List Char → String)
    (shapeOf : List Char → ℕ × ℕ) :
    (Slices_paths names = [] → Slices_init names dtypeOf shapeOf = .error "IndexError") ∧
    (∀ top rest, Slices_paths names = top :: rest →
      Slices_init names dtypeOf shapeOf =
        .ok ⟨(shapeOf top).1, (shapeOf top).2, rest.length + 1, dtypeOf top⟩) := by
  constructor
  · intro h
    simp only [Slices_init, h]
  · intro top rest h
    simp only [Slices_init, h, List.length_cons]

/-- Witness for `slices_init_spec`: a two-slice directory with mixed dtypes. -/
theorem slices_init_spec_witness :
    Slices_init ["s_1.png".toList, "s_2.png".toList]
      (fun n => if n = "s_1.png".toList then "uint16" else "float32")
      (fun _ => (3, 5)) = .ok ⟨3, 5, 2, "uint16"⟩ := by
  exact (slices_init_spec ["s_1.png".toList, "s_2.png".toList]
    (fun n => if n = "s_1.png".toList then "uint16" else "float32")
    (fun _ => (3, 5))).2 "s_1.png".toList ["s_2.png".toList] (by decide)

/-- C8 (counterexample): with numeric suffixes not zero-padded to equal width,
`Slices.to_raw` concatenates in lexicographic order, not numeric order:
`d_10.png` (index 10, bytes [1]) is emitted before `d_2.png` (index 2,
bytes [0]), while numeric z-index order would emit [0, 1]. -/
theorem slices_to_raw_lexicographic_not_numeric :
    Slices_to_raw_bytes ["d_10.png".toList, "d_2.png".toList]
      (fun n => if n = "d_10.png".toList then [1] else [0]) = [1, 0] ∧
    fname2idx "d_10.png".toList = 10 ∧
    fname2idx "d_2.png".toList = 2 ∧
    ((sortLe (fun a b => decide (fname2idx a ≤ fname2idx b))
        ["d_10.png".toList, "d_2.png".toList]).flatMap
      (fun n => if n = "d_10.png".toList then [1] else [0])) = [0, 1] ∧
    ([1, 0] : List ℕ) ≠ [0, 1] := by
  exact ⟨by decide, by decide, by decide, by decide, by decide⟩

end Rawtools

namespace Rawtools

/-! ### Lexicographic versus numeric order on zero-padded digit suffixes -/

theorem char_toNat_inj {c d : Char} (h : c.toNat = d.toNat) : c = d :=
  Char.ext (UInt32.ext h)

theorem parseNat_foldl_acc (cs : List Char) : ∀ acc : ℕ,
    cs.foldl (fun a c => a * 10 + digVal c) acc = acc * 10 ^ cs.length + parseNat cs := by
  induction cs with
  | nil => intro acc; simp [parseNat]
  | cons c cs ih =>
    intro acc
    have h0 : parseNat (c :: cs) = digVal c * 10 ^ cs.length + parseNat cs := by
      show List.foldl _ 0 (c :: cs) = _
      rw [List.foldl_cons, ih (0 * 10 + digVal c)]
      ring
    simp only [List.foldl_cons, List.length_cons]
    rw [ih (acc * 10 + digVal c), h0]
    ring

theorem parseNat_cons (c : Char) (cs : List Char) :
    parseNat (c :: cs) = digVal c * 10 ^ cs.length + parseNat cs := by
  show List.foldl _ 0 (c :: cs) = _
  rw [List.foldl_cons, parseNat_foldl_acc cs (0 * 10 + digVal c)]
  ring

theorem digVal_le_nine {c : Char} (h : pyDigit c = true) : digVal c ≤ 9 := by
  simp only [pyDigit, Bool.and_eq_true, decide_eq_true_eq] at h
  simp only [digVal]
  omega

theorem parseNat_lt (cs : List Char) (h : ∀ c ∈ cs, pyDigit c = true) :
    parseNat cs < 10 ^ cs.length := by
  induction cs with
  | nil => simp [parseNat]
  | cons c cs ih =>
    rw [parseNat_cons]
    have h1 := digVal_le_nine (h c (List.mem_cons_self c cs))
    have h2 := ih fun e he => h e (List.mem_cons_of_mem c he)
    simp only [List.length_cons]
    calc digVal c * 10 ^ cs.length + parseNat cs
        ≤ 9 * 10 ^ cs.length + parseNat cs := by
          exact Nat.add_le_add_right (Nat.mul_le_mul_right _ h1) _
    _ < 9 * 10 ^ cs.length + 10 ^ cs.length := by omega
    _ = 10 ^ (cs.length + 1) := by ring

theorem lexLt_irrefl : ∀ l : List Char, lexLt l l = false := by
  intro l
  induction l with
  | nil => rfl
  | cons c cs ih => simp [lexLt, ih]

theorem lexLt_append_same : ∀ p a b : List Char, lexLt (p ++ a) (p ++ b) = lexLt a b := by
  intro p a b
  induction p with
  | nil => rfl
  | cons c cs ih => simp [lexLt, ih]

/-- Lexicographic comparison of equal-length digit blocks followed by
arbitrary tails: decided by the numeric values, with ties broken by the tails. -/
theorem lexLt_digit_blocks : ∀ a b s t : List Char, a.length = b.length →
    (∀ c ∈ a, pyDigit c = true) → (∀ c ∈ b, pyDigit c = true) →
    lexLt (a ++ s) (b ++ t) =
      (decide (parseNat a < parseNat b) || (decide (a = b) && lexLt s t)) := by
  intro a
  induction a with
  | nil =>
    intro b s t hlen _ _
    have hb : b = [] := List.length_eq_zero.mp hlen.symm
    subst hb
    simp [parseNat]
  | cons c as ih =>
    intro b s t hlen ha hb
    match b, hlen with
    | d :: bs, hlen =>
      have hlen' : as.length = bs.length := by simpa using hlen
      have hc := ha c (List.mem_cons_self c as)
      have hd := hb d (List.mem_cons_self d bs)
      have has := fun e he => ha e (List.mem_cons_of_mem c he)
      have hbs := fun e he => hb e (List.mem_cons_of_mem d he)
      have hva := parseNat_lt as has
      have hvb := parseNat_lt bs hbs
      rw [hlen'] at hva
      simp only [pyDigit, Bool.and_eq_true, decide_eq_true_eq] at hc hd
      simp only [List.cons_append, lexLt, parseNat_cons, hlen', List.append_eq]
      by_cases h1 : c.toNat < d.toNat
      · have hdig : digVal c < digVal d := by simp only [digVal]; omega
        have hval : digVal c * 10 ^ bs.length + parseNat as <
            digVal d * 10 ^ bs.length + parseNat bs := by
          calc digVal c * 10 ^ bs.length + parseNat as
              < digVal c * 10 ^ bs.length + 10 ^ bs.length := by
                have := hva; omega
          _ = (digVal c + 1) * 10 ^ bs.length := by ring
          _ ≤ digVal d * 10 ^ bs.length := Nat.mul_le_mul_right _ (by omega)
          _ ≤ digVal d * 10 ^ bs.length + parseNat bs := Nat.le_add_right _ _
        rw [if_pos h1]
        have := hlen'
        simp [hval, hlen']
      · by_cases h2 : d.toNat < c.toNat
        · have hdig : digVal d < digVal c := by simp only [digVal]; omega
          have hval : ¬(digVal c * 10 ^ bs.length + parseNat as <
              digVal d * 10 ^ bs.length + parseNat bs) := by
            have : digVal d * 10 ^ bs.length + parseNat bs <
                digVal c * 10 ^ bs.length + parseNat as := by
              calc digVal d * 10 ^ bs.length + parseNat bs
                  < digVal d * 10 ^ bs.length + 10 ^ bs.length := by
                    have := hvb; omega
              _ = (digVal d + 1) * 10 ^ bs.length := by ring
              _ ≤ digVal c * 10 ^ bs.length := Nat.mul_le_mul_right _ (by omega)
              _ ≤ digVal c * 10 ^ bs.length + parseNat as := Nat.le_add_right _ _
            omega
          have hne : ¬(c = d) := fun he => by subst he; omega
          rw [if_neg h1, if_pos h2]
          simp [hval, hne, hlen']
        · have heq : c = d := char_toNat_inj (by omega)
          subst heq
          rw [if_neg h1, if_neg h2]
          rw [ih bs s t hlen' has hbs]
          have hiff : digVal c * 10 ^ bs.length + parseNat as <
              digVal c * 10 ^ bs.length + parseNat bs ↔ parseNat as < parseNat bs := by
            omega
          simp only [List.cons.injEq, true_and, hlen']
          by_cases h3 : parseNat as < parseNat bs
          · simp [h3, hiff.mpr h3]
          · simp [h3, fun hcon => h3 (hiff.mp hcon)]

end Rawtools

namespace Rawtools

/-- Left-pad a digit string with '0' to width `w` (zero-padded slice index,
as produced by `f'{idx:0N d}'`). -/
def leftPad0 (w : ℕ) (ds : List Char) : List Char :=
  List.replicate (w - ds.length) '0' ++ ds

/-- The zero-padded decimal rendering of `i` at width `w`. -/
def zeroPad (w i : ℕ) : List Char := leftPad0 w (renderNat i)

theorem renderNat_length_le (i w : ℕ) (hw : 0 < w) (h : i < 10 ^ w) :
    (renderNat i).length ≤ w := by
  unfold renderNat
  split
  · simpa using hw
  · simpa using natDigitsRev_length_le i w h

theorem zeroPad_length (w i : ℕ) (hw : 0 < w) (h : i < 10 ^ w) :
    (zeroPad w i).length = w := by
  have hle := renderNat_length_le i w hw h
  simp only [zeroPad, leftPad0, List.length_append, List.length_replicate]
  omega

theorem zeroPad_digits (w i : ℕ) : ∀ c ∈ zeroPad w i, pyDigit c = true := by
  intro c hc
  simp only [zeroPad, leftPad0, List.mem_append, List.mem_replicate] at hc
  rcases hc with ⟨_, rfl⟩ | hmem
  · decide
  · exact pyDigit_renderNat i c hmem

theorem parseNat_replicate_zero : ∀ (j : ℕ) (l : List Char),
    parseNat (List.replicate j '0' ++ l) = parseNat l := by
  intro j
  induction j with
  | zero => intro l; rfl
  | succ j ih =>
    intro l
    show List.foldl _ 0 (('0' :: List.replicate j '0') ++ l) = _
    rw [List.cons_append, List.foldl_cons]
    exact ih l

theorem parseNat_zeroPad (w i : ℕ) : parseNat (zeroPad w i) = i := by
  simp only [zeroPad, leftPad0]
  rw [parseNat_replicate_zero, parseNat_renderNat]

/-! ### insertion sort commutes with an order-reflecting rendering -/

theorem mem_insertLe {α : Type} (le : α → α → Bool) (x y : α) :
    ∀ l : List α, y ∈ insertLe le x l → y = x ∨ y ∈ l := by
  intro l
  induction l with
  | nil => intro h; simpa [insertLe] using h
  | cons z zs ih =>
    simp only [insertLe]
    split
    · intro h
      rcases List.mem_cons.mp h with rfl | h2
      · exact Or.inl rfl
      · exact Or.inr h2
    · intro h
      rcases List.mem_cons.mp h with rfl | h2
      · exact Or.inr (List.mem_cons_self _ _)
      · rcases ih h2 with rfl | h3
        · exact Or.inl rfl
        · exact Or.inr (List.mem_cons_of_mem _ h3)

theorem mem_sortLe {α : Type} (le : α → α → Bool) (y : α) :
    ∀ l : List α, y ∈ sortLe le l → y ∈ l := by
  intro l
  induction l with
  | nil => intro h; simpa [sortLe] using h
  | cons x xs ih =>
    intro h
    rcases mem_insertLe le x y (sortLe le xs) h with rfl | h2
    · exact List.mem_cons_self _ _
    · exact List.mem_cons_of_mem _ (ih h2)

theorem insertLe_map {α β : Type} (f : α → β) (leB : β → β → Bool)
    (leA : α → α → Bool) (x : α) :
    ∀ l : List α, (∀ y ∈ l, leB (f x) (f y) = leA x y) →
      insertLe leB (f x) (l.map f) = (insertLe leA x l).map f := by
  intro l
  induction l with
  | nil => intro _; rfl
  | cons y ys ih =>
    intro h
    simp only [List.map_cons, insertLe, h y (List.mem_cons_self y ys)]
    split
    · simp
    · simp only [List.map_cons, List.cons.injEq, true_and]
      exact ih fun z hz => h z (List.mem_cons_of_mem y hz)

theorem sortLe_map {α β : Type} (f : α → β) (leB : β → β → Bool)
    (leA : α → α → Bool) :
    ∀ l : List α, (∀ x ∈ l, ∀ y ∈ l, leB (f x) (f y) = leA x y) →
      sortLe leB (l.map f) = (sortLe leA l).map f := by
  intro l
  induction l with
  | nil => intro _; rfl
  | cons x xs ih =>
    intro h
    simp only [List.map_cons, sortLe]
    rw [ih fun a ha b hb =>
      h a (List.mem_cons_of_mem x ha) b (List.mem_cons_of_mem x hb)]
    exact insertLe_map f leB leA x (sortLe leA xs) fun y hy =>
      h x (List.mem_cons_self x xs) y
        (List.mem_cons_of_mem x (mem_sortLe leA y xs hy))

/-- Lexicographic order on names `stem ++ zeroPad w i ++ ext` agrees with
numeric order on the indices. -/
theorem lexLe_zeroPad_names (stem ext : List Char) (w : ℕ) (hw : 0 < w)
    (i j : ℕ) (hi : i < 10 ^ w) (hj : j < 10 ^ w) :
    (!(lexLt (stem ++ (zeroPad w j ++ ext)) (stem ++ (zeroPad w i ++ ext)))) =
      decide (i ≤ j) := by
  rw [lexLt_append_same,
    lexLt_digit_blocks (zeroPad w j) (zeroPad w i) ext ext
      (by rw [zeroPad_length w j hw hj, zeroPad_length w i hw hi])
      (zeroPad_digits w j) (zeroPad_digits w i),
    lexLt_irrefl, parseNat_zeroPad, parseNat_zeroPad]
  by_cases h : j < i
  · simp [h, Nat.not_le.mpr h]
  · simp [h, Nat.le_of_not_lt h]

/-- C8 (amended): `Slices.to_raw` emits slice bytes in lexicographic filename
order; when the matched filenames carry equal-width zero-padded numeric
suffixes (`stem ++ pad(i) ++ ext` with `i < 10^w`, the shape this package's
own exporters produce), that order is exactly increasing numeric z-index
order, so the bytes are concatenated in ascending slice index. -/
theorem slices_to_raw_zero_padded_numeric_order (stem ext : List Char) (w : ℕ)
    (hw : 0 < w) (is : List ℕ) (hidx : ∀ i ∈ is, i < 10 ^ w)
    (contents : List Char → List ℕ) :
    Slices_to_raw_bytes (is.map fun i => stem ++ (zeroPad w i ++ ext)) contents =
      (sortLe (fun i j => decide (i ≤ j)) is).flatMap
        fun i => contents (stem ++ (zeroPad w i ++ ext)) := by
  unfold Slices_to_raw_bytes Slices_paths
  rw [sortLe_map (fun i => stem ++ (zeroPad w i ++ ext)) _ (fun i j => decide (i ≤ j))
    is fun a ha b hb => lexLe_zeroPad_names stem ext w hw a b (hidx a ha) (hidx b hb)]
  rw [List.flatMap_map]

/-- Witness for `slices_to_raw_zero_padded_numeric_order`: two-digit padded
indices 02 and 10 are concatenated in numeric order. -/
theorem slices_to_raw_zero_padded_numeric_order_witness :
    Slices_to_raw_bytes ([2, 10].map fun i => "d_".toList ++ (zeroPad 2 i ++ ".png".toList))
      (fun n => if n = "d_".toList ++ (zeroPad 2 2 ++ ".png".toList) then [0] else [1]) =
      (sortLe (fun i j => decide (i ≤ j)) [2, 10]).flatMap
        fun i => (fun n => if n = "d_".toList ++ (zeroPad 2 2 ++ ".png".toList)
          then [0] else [1]) ("d_".toList ++ (zeroPad 2 i ++ ".png".toList)) :=
  slices_to_raw_zero_padded_numeric_order "d_".toList ".png".toList 2 (by decide)
    [2, 10] (by decide)
    (fun n => if n = "d_".toList ++ (zeroPad 2 2 ++ ".png".toList) then [0] else [1])

end Rawtools

namespace Rawtools

/-! ### The `.dat` line parsers (`rawtools/utils/dat.py`, lines 123-238)

Each private `__parse_*` function is `re.match` (anchored prefix match,
`re.IGNORECASE`) of one fixed pattern.  Every pattern here is deterministic:
at each boundary the adjacent character classes are disjoint (digits vs '.',
word chars vs ':', whitespace vs digits, ...), so greedy matching without
backtracking — implemented below with `takeWhile`/`dropWhile` spans and
literal matches — computes exactly the regex semantics.  The one
genuinely backtracking construct, the greedy `.*\.raw` capture, is
implemented as an explicit search for the rightmost valid split. -/

/-- Case-insensitive literal prefix match, returning the remainder. -/
def matchLit : List Char → List Char → Option (List Char)
  | [], s => some s
  | _ :: _, [] => none
  | p :: ps, c :: cs => if lcase c = lcase p then matchLit ps cs else none

/-- `(?:X)+`-style span: one or more characters satisfying `p`. -/
def span1 (p : Char → Bool) (s : List Char) : Option (List Char × List Char) :=
  if (s.takeWhile p).isEmpty then none else some (s.takeWhile p, s.dropWhile p)

/-- Python `str.rstrip()` (trailing `\s*` before an end anchor). -/
def rstrip (l : List Char) : List Char := (l.reverse.dropWhile pySpace).reverse

/-- Does `l` end with ".raw" (case-insensitively)? -/
def endsWithRaw (l : List Char) : Bool :=
  (l.reverse.take 4).map lcase = ['w', 'a', 'r', '.']

/-- NSI `ObjectFileName`: `r'\s*ObjectFileName\:\s+(?P<filename>.*\.raw)\s*$'`.
The greedy capture is everything up to the trailing whitespace, provided it
ends in ".raw". -/
def parse_object_filename_nsi (line : List Char) : Option (List Char) :=
  (matchLit "objectfilename:".toList (line.dropWhile pySpace)).bind fun r =>
  (span1 pySpace r).bind fun s =>
  let body := rstrip s.2
  if endsWithRaw body then some body else none

/-- Dragonfly `ObjectFileName`:
`r'\s*<ObjectFileName>\s*(?P<filename>.*\.raw)\s*<\/ObjectFileName>'`.
The greedy `.*` takes the longest prefix ending in ".raw" that is followed by
optional whitespace and the closing tag. -/
def parse_object_filename_drg (line : List Char) : Option (List Char) :=
  (matchLit "<objectfilename>".toList (line.dropWhile pySpace)).bind fun r =>
  let t := r.dropWhile pySpace
  let ok : ℕ → Prop := fun n => endsWithRaw (t.take n) = true ∧
    (matchLit "</objectfilename>".toList ((t.drop n).dropWhile pySpace)).isSome = true
  have : DecidablePred ok := fun n => instDecidableAnd
  let n := Nat.findGreatest (fun n => ok n) t.length
  if ok n then some (t.take n) else none

def parse_object_filename (line : List Char) (dat_format : String) : Option (List Char) :=
  if dat_format = "Dragonfly" then parse_object_filename_drg line
  else parse_object_filename_nsi line

/-- Shared XML-attribute resolution tail: `X="(\d+)"\s+Y="(\d+)"\s+Z="(\d+)"`,
entered after `<Resolution ` has been consumed. -/
def parse_resolution_xml_attrs (s : List Char) : Option (ℕ × ℕ × ℕ) :=
  (matchLit "x=\"".toList s).bind fun r1 =>
  (span1 pyDigit r1).bind fun d1 =>
  (matchLit "\"".toList d1.2).bind fun r2 =>
  (span1 pySpace r2).bind fun s2 =>
  (matchLit "y=\"".toList s2.2).bind fun r3 =>
  (span1 pyDigit r3).bind fun d2 =>
  (matchLit "\"".toList d2.2).bind fun r4 =>
  (span1 pySpace r4).bind fun s3 =>
  (matchLit "z=\"".toList s3.2).bind fun r5 =>
  (span1 pyDigit r5).bind fun d3 =>
  (matchLit "\"".toList d3.2).map fun _ =>
  (parseNat d1.1, parseNat d2.1, parseNat d3.1)

/-- NSI `Resolution` (new format):
`r'\s*Resolution\:\s+(?P<x>\d+)\s+(?P<y>\d+)\s+(?P<z>\d+)'`. -/
def parse_resolution_nsi (line : List Char) : Option (ℕ × ℕ × ℕ) :=
  (matchLit "resolution:".toList (line.dropWhile pySpace)).bind fun r =>
  (span1 pySpace r).bind fun s1 =>
  (span1 pyDigit s1.2).bind fun d1 =>
  (span1 pySpace d1.2).bind fun s2 =>
  (span1 pyDigit s2.2).bind fun d2 =>
  (span1 pySpace d2.2).bind fun s3 =>
  (span1 pyDigit s3.2).map fun d3 =>
  (parseNat d1.1, parseNat d2.1, parseNat d3.1)

/-- Legacy NSI XML resolution:
`r'\s+<Resolution X="(?P<x>\d+)"\s+Y="(?P<y>\d+)"\s+Z="(?P<z>\d+)"'`
(note the *required* leading whitespace). -/
def parse_resolution_old_nsi (line : List Char) : Option (ℕ × ℕ × ℕ) :=
  (span1 pySpace line).bind fun s0 =>
  (matchLit "<resolution".toList s0.2).bind fun r =>
  (span1 pySpace r).bind fun s1 =>
  parse_resolution_xml_attrs s1.2

/-- Dragonfly resolution:
`r'\s*<Resolution X="(?P<x>\d+)"\s+Y="(?P<y>\d+)"\s+Z="(?P<z>\d+)"'`. -/
def parse_resolution_drg (line : List Char) : Option (ℕ × ℕ × ℕ) :=
  (matchLit "<resolution".toList (line.dropWhile pySpace)).bind fun r =>
  (span1 pySpace r).bind fun s1 =>
  parse_resolution_xml_attrs s1.2

/-- `__parse_resolution`: Dragonfly pattern, or the new NSI pattern with the
legacy XML pattern as fallback. -/
def parse_resolution (line : List Char) (dat_format : String) : Option (ℕ × ℕ × ℕ) :=
  if dat_format = "Dragonfly" then parse_resolution_drg line
  else
    match parse_resolution_nsi line with
    | some v => some v
    | none => parse_resolution_old_nsi line

/-- `(\d+\.\d+)` followed by `int`/`float` conversion: a decimal with a
mandatory fractional part, as an exact rational. -/
def parse_decimal (s : List Char) : Option (ℚ × List Char) :=
  (span1 pyDigit s).bind fun d1 =>
  match d1.2 with
  | '.' :: r =>
    (span1 pyDigit r).map fun d2 =>
    (((parseNat d1.1 : ℚ) + (parseNat d2.1 : ℚ) / 10 ^ d2.1.length), d2.2)
  | _ => none

/-- Dragonfly float: `\d+(\.\d+(e-\d+)?)?` (optional fraction, optional
negative exponent), as an exact rational. -/
def parse_drg_float (s : List Char) : Option (ℚ × List Char) :=
  (span1 pyDigit s).bind fun d1 =>
  match d1.2 with
  | '.' :: r =>
    match span1 pyDigit r with
    | none => some ((parseNat d1.1 : ℚ), d1.2)
    | some d2 =>
      let base : ℚ := (parseNat d1.1 : ℚ) + (parseNat d2.1 : ℚ) / 10 ^ d2.1.length
      match d2.2 with
      | 'e' :: '-' :: r2 =>
        match span1 pyDigit r2 with
        | none => some (base, d2.2)
        | some d3 => some (base / 10 ^ parseNat d3.1, d3.2)
      | _ => some (base, d2.2)
  | _ => some ((parseNat d1.1 : ℚ), d1.2)

/-- NSI slice thickness:
`r'\w+\:\s+(?P<xth>\d+\.\d+)\s+(?P<yth>\d+\.\d+)\s+(?P<zth>\d+\.\d+)'`. -/
def parse_slice_thickness_nsi (line : List Char) : Option (ℚ × ℚ × ℚ) :=
  (span1 pyWord line).bind fun w =>
  match w.2 with
  | ':' :: r =>
    (span1 pySpace r).bind fun s1 =>
    (parse_decimal s1.2).bind fun t1 =>
    (span1 pySpace t1.2).bind fun s2 =>
    (parse_decimal s2.2).bind fun t2 =>
    (span1 pySpace t2.2).bind fun s3 =>
    (parse_decimal s3.2).map fun t3 =>
    (t1.1, t2.1, t3.1)
  | _ => none

/-- Dragonfly spacing:
`r'\s*<Spacing\s+X="(...)"\s+Y="(...)"\s+Z="(...)"\s+\/>\s*'`;
values are in meters and are multiplied by 1000 on read. -/
def parse_slice_thickness_drg (line : List Char) : Option (ℚ × ℚ × ℚ) :=
  (matchLit "<spacing".toList (line.dropWhile pySpace)).bind fun r =>
  (span1 pySpace r).bind fun s1 =>
  (matchLit "x=\"".toList s1.2).bind fun r1 =>
  (parse_drg_float r1).bind fun t1 =>
  (matchLit "\"".toList t1.2).bind fun r2 =>
  (span1 pySpace r2).bind fun s2 =>
  (matchLit "y=\"".toList s2.2).bind fun r3 =>
  (parse_drg_float r3).bind fun t2 =>
  (matchLit "\"".toList t2.2).bind fun r4 =>
  (span1 pySpace r4).bind fun s3 =>
  (matchLit "z=\"".toList s3.2).bind fun r5 =>
  (parse_drg_float r5).bind fun t3 =>
  (matchLit "\"".toList t3.2).bind fun r6 =>
  (span1 pySpace r6).bind fun s4 =>
  (matchLit "/>".toList s4.2).map fun _ =>
  (t1.1 * 1000, t2.1 * 1000, t3.1 * 1000)

def parse_slice_thickness (line : List Char) (dat_format : String) : Option (ℚ × ℚ × ℚ) :=
  if dat_format = "Dragonfly" then parse_slice_thickness_drg line
  else parse_slice_thickness_nsi line

/-- NSI format: `r'Format\:\s+(?P<format>\w+)$'` (end-anchored). -/
def parse_format_nsi (line : List Char) : Option (List Char) :=
  (matchLit "format:".toList line).bind fun r =>
  (span1 pySpace r).bind fun s1 =>
  (span1 pyWord s1.2).bind fun w =>
  if w.2.isEmpty then some w.1 else none

/-- Dragonfly format: `r'\s*<Format>(?P<format>\w+)<\/Format>'`. -/
def parse_format_drg (line : List Char) : Option (List Char) :=
  (matchLit "<format>".toList (line.dropWhile pySpace)).bind fun r =>
  (span1 pyWord r).bind fun w =>
  (matchLit "</format>".toList w.2).map fun _ => w.1

def parse_format (line : List Char) (dat_format : String) : Option (List Char) :=
  if dat_format = "Dragonfly" then parse_format_drg line
  else parse_format_nsi line

/-- NSI object model: `r'^ObjectModel\:\s+(?P<object_model>\w+)$'`. -/
def parse_object_model_nsi (line : List Char) : Option (List Char) :=
  (matchLit "objectmodel:".toList line).bind fun r =>
  (span1 pySpace r).bind fun s1 =>
  (span1 pyWord s1.2).bind fun w =>
  if w.2.isEmpty then some w.1 else none

/-- Dragonfly object model: `r'\s*<Unit>(?P<object_model>\w+)<\/Unit>'`. -/
def parse_object_model_drg (line : List Char) : Option (List Char) :=
  (matchLit "<unit>".toList (line.dropWhile pySpace)).bind fun r =>
  (span1 pyWord r).bind fun w =>
  (matchLit "</unit>".toList w.2).map fun _ => w.1

def parse_object_model (line : List Char) (dat_format : String) : Option (List Char) :=
  if dat_format = "Dragonfly" then parse_object_model_drg line
  else parse_object_model_nsi line

/-- `__is_dragonfly_dat_format`: `r'<\?xml\sversion="1\.0"\?>'` (`\s` is one
whitespace character). -/
def is_dragonfly_dat_format (line : List Char) : Bool :=
  match matchLit "<?xml".toList line with
  | none => false
  | some r =>
    match r with
    | [] => false
    | c :: r2 => pySpace c && (matchLit "version=\"1.0\"?>".toList r2).isSome

end Rawtools

namespace Rawtools

/-! ### `dat.read` (`rawtools/utils/dat.py`, lines 241-287)

`read` scans every line (stripped), switching the dialect to Dragonfly when
the XML declaration matches, and overwrites each field with the latest
successful extraction.  It returns the record only when every field was
populated (`not any(value is None ...)` over the dataclass: `path` and
`syntax` are always set, and the aggregate dimension/thickness fields are set
together with their components, so the check is exactly the five optional
extractions below). -/

structure DatState where
  dialect : String
  object_filename : Option (List Char)
  dimensions : Option (ℕ × ℕ × ℕ)
  thickness : Option (ℚ × ℚ × ℚ)
  format : Option (List Char)
  model : Option (List Char)
  deriving Repr

def initDatState : DatState :=
  { dialect := "NSI", object_filename := none, dimensions := none,
    thickness := none, format := none, model := none }

/-- One iteration of `read`'s line loop. -/
def readLine (st : DatState) (raw : List Char) : DatState :=
  let line := pyStrip raw
  let st1 := if is_dragonfly_dat_format line then { st with dialect := "Dragonfly" } else st
  let st2 := match parse_object_filename line st1.dialect with
             | some f => { st1 with object_filename := some f }
             | none => st1
  let st3 := match parse_resolution line st2.dialect with
             | some v => { st2 with dimensions := some v }
             | none => st2
  let st4 := match parse_slice_thickness line st3.dialect with
             | some v => { st3 with thickness := some v }
             | none => st3
  let st5 := match parse_format line st4.dialect with
             | some v => { st4 with format := some v }
             | none => st4
  match parse_object_model line st5.dialect with
  | some v => { st5 with model := some v }
  | none => st5

/-- `dat.read`, over the file's lines. -/
def read (lines : List (List Char)) : Except String DatMeta :=
  let st := lines.foldl readLine initDatState
  match st.object_filename, st.dimensions, st.thickness, st.format, st.model with
  | some f, some dims, some th, some fmt, some m =>
    .ok { object_filename := f, dimensions := dims, thickness := th,
          format := String.mk fmt, model := m }
  | _, _, _, _, _ => .error "Unable to parse"

/-! ### `dat.write` (`rawtools/utils/dat.py`, lines 290-411)

The tuple path of `write`: three integer dimensions and three float
thicknesses (the dict/list paths and the 3-component validation are the
typing of the arguments here), the format token from `format_from_bitdepth`
(whose failure propagates before anything is written), and the fixed
five-line NSI layout produced by the dedented f-string.  `readlines` on the
written file yields exactly these five lines.

Thickness values are Python floats rendered by `str()`.  The model represents
them as exact nonnegative decimals `num / 10^exp` and `pyFloatRepr` mirrors
`repr(float)` on such values: positional digits when 1e-4 <= v < 1e16,
scientific notation (`1e-05`, `1.5e+16`, two-digit exponent) otherwise,
shortest-digits rounding being waived by exactness ("to float precision"). -/

structure Decimal where
  num : ℕ
  exp : ℕ
  deriving Repr, DecidableEq

/-- The rational value `num / 10^exp`. -/
def Decimal.val (d : Decimal) : ℚ := (d.num : ℚ) / 10 ^ d.exp

/-- Positional rendering `int.frac` (always with a fractional part, like
`str(2.0) = '2.0'`). -/
def positionalRepr (d : Decimal) : List Char :=
  renderNat (d.num / 10 ^ d.exp) ++ '.' ::
    (if d.exp = 0 then ['0'] else leftPad0 d.exp (renderNat (d.num % 10 ^ d.exp)))

/-- Scientific rendering `m.antissae-XX` (trailing zeros stripped from the
significand, sign and two-digit zero-padded exponent). -/
def scientificRepr (d : Decimal) : List Char :=
  let sig := (natDigitsRev d.num).dropWhile (fun x => x = 0)
  let msd := sig.reverse.map digitChar
  let mant := match msd with
    | [] => ['0']
    | [c] => [c]
    | c :: rest => c :: '.' :: rest
  let e : ℤ := ((natDigitsRev d.num).length : ℤ) - 1 - (d.exp : ℤ)
  let estr := if e < 0 then '-' :: leftPad0 2 (renderNat e.natAbs)
              else '+' :: leftPad0 2 (renderNat e.natAbs)
  mant ++ 'e' :: estr

/-- Python renders positionally exactly when 1e-4 ≤ value < 1e16. -/
def positionalRange (d : Decimal) : Prop :=
  10 ^ d.exp ≤ d.num * 10 ^ 4 ∧ d.num < 10 ^ (16 + d.exp)

instance (d : Decimal) : Decidable (positionalRange d) := instDecidableAnd

/-- `str(float(v))` for an exact nonnegative decimal. -/
def pyFloatRepr (d : Decimal) : List Char :=
  if d.num = 0 then "0.0".toList
  else if positionalRange d then positionalRepr d
  else scientificRepr d

/-- `dat.write` (tuple path): the five NSI lines the file will contain. -/
def write (stem : List Char) (dimensions : ℕ × ℕ × ℕ)
    (thickness : Decimal × Decimal × Decimal) (dtype : String)
    (model : List Char) : Except String (List (List Char)) :=
  match format_from_bitdepth dtype with
  | .error e => .error e
  | .ok fmt =>
    .ok ["ObjectFileName: ".toList ++ (stem ++ ".raw".toList),
         "Resolution:     ".toList ++ (renderNat dimensions.1 ++
           (' ' :: (renderNat dimensions.2.1 ++ (' ' :: renderNat dimensions.2.2)))),
         "SliceThickness: ".toList ++ (pyFloatRepr thickness.1 ++
           (' ' :: (pyFloatRepr thickness.2.1 ++ (' ' :: pyFloatRepr thickness.2.2)))),
         "Format:         ".toList ++ fmt.toList,
         "ObjectModel:    ".toList ++ model]

end Rawtools

namespace Rawtools

set_option maxRecDepth 4000 in
/-- C3 (counterexample): writing a `.dat` with thickness 1e-05 (a positive
real, rendered by Python as '1e-05') and reading it back fails: the NSI
thickness pattern `\d+\.\d+` does not match scientific notation, so the
SliceThickness field is never populated and `read` raises "Unable to parse"
instead of recovering the values. -/
theorem dat_round_trip_fails_scientific :
    (write "volume".toList (10, 11, 12) (⟨1, 5⟩, ⟨1, 5⟩, ⟨1, 5⟩) "uint16"
      "DENSITY".toList).bind read = .error "Unable to parse" ∧
    (Decimal.mk 1 5).val = 1 / 100000 ∧ (0 : ℚ) < 1 / 100000 := by
  refine ⟨rfl, ?_, by norm_num⟩
  simp only [Decimal.val]
  norm_num

end Rawtools

namespace Rawtools

/-- C6: `read` returns a parsed record exactly when all six required fields
(object filename, the three dimensions, the three thicknesses, format, object
model) were extracted over the scan of every line; a returned record carries
exactly the extracted values, and if any field is missing after scanning every
line, `read` raises "Unable to parse" rather than returning a partial result. -/
theorem read_all_or_nothing (lines : List (List Char)) :
    (((lines.foldl readLine initDatState).object_filename.isSome = true ∧
      (lines.foldl readLine initDatState).dimensions.isSome = true ∧
      (lines.foldl readLine initDatState).thickness.isSome = true ∧
      (lines.foldl readLine initDatState).format.isSome = true ∧
      (lines.foldl readLine initDatState).model.isSome = true) ↔
        ∃ d, read lines = .ok d) ∧
    (∀ d, read lines = .ok d →
      (lines.foldl readLine initDatState).object_filename = some d.object_filename ∧
      (lines.foldl readLine initDatState).dimensions = some d.dimensions ∧
      (lines.foldl readLine initDatState).thickness = some d.thickness ∧
      (lines.foldl readLine initDatState).format = some d.format.data ∧
      (lines.foldl readLine initDatState).model = some d.model) ∧
    (¬((lines.foldl readLine initDatState).object_filename.isSome = true ∧
       (lines.foldl readLine initDatState).dimensions.isSome = true ∧
       (lines.foldl readLine initDatState).thickness.isSome = true ∧
       (lines.foldl readLine initDatState).format.isSome = true ∧
       (lines.foldl readLine initDatState).model.isSome = true) →
      read lines = .error "Unable to parse") := by
  cases h1 : (lines.foldl readLine initDatState).object_filename with
  | none => simp [read, h1]
  | some f =>
    cases h2 : (lines.foldl readLine initDatState).dimensions with
    | none => simp [read, h1, h2]
    | some dims =>
      cases h3 : (lines.foldl readLine initDatState).thickness with
      | none => simp [read, h1, h2, h3]
      | some th =>
        cases h4 : (lines.foldl readLine initDatState).format with
        | none => simp [read, h1, h2, h3, h4]
        | some fmt =>
          cases h5 : (lines.foldl readLine initDatState).model with
          | none => simp [read, h1, h2, h3, h4, h5]
          | some m =>
            refine ⟨⟨fun _ => ⟨⟨f, dims, th, String.mk fmt, m⟩, ?_⟩, fun _ => by simp⟩,
              fun d hd => ?_, fun hno => ?_⟩
            · simp [read, h1, h2, h3, h4, h5]
            · simp only [read, h1, h2, h3, h4, h5, Except.ok.injEq] at hd
              subst hd
              simp
            · exact absurd ⟨by simp, by simp, by simp, by simp, by simp⟩ hno

/-- Witness for `read_all_or_nothing`: an empty file has no fields and fails. -/
theorem read_all_or_nothing_witness : read [] = .error "Unable to parse" :=
  (read_all_or_nothing []).2.2 (by decide)

end Rawtools

namespace Rawtools

/-! ### Evaluation lemmas for the spans on rendered numbers -/

theorem takeWhile_append_of_all {p : Char → Bool} :
    ∀ (l1 l2 : List Char), (∀ c ∈ l1, p c = true) →
      (l1 ++ l2).takeWhile p = l1 ++ l2.takeWhile p := by
  intro l1
  induction l1 with
  | nil => intro l2 _; rfl
  | cons c cs ih =>
    intro l2 h
    simp only [List.cons_append, List.takeWhile_cons, h c (List.mem_cons_self c cs),
      if_true]
    rw [ih l2 fun e he => h e (List.mem_cons_of_mem c he)]

theorem dropWhile_append_of_all {p : Char → Bool} :
    ∀ (l1 l2 : List Char), (∀ c ∈ l1, p c = true) →
      (l1 ++ l2).dropWhile p = l2.dropWhile p := by
  intro l1
  induction l1 with
  | nil => intro l2 _; rfl
  | cons c cs ih =>
    intro l2 h
    simp only [List.cons_append, List.dropWhile_cons, h c (List.mem_cons_self c cs),
      if_true]
    exact ih l2 fun e he => h e (List.mem_cons_of_mem c he)

theorem dropWhile_eq_self_of_takeWhile_nil {p : Char → Bool} {l : List Char}
    (h : l.takeWhile p = []) : l.dropWhile p = l := by
  cases l with
  | nil => rfl
  | cons c cs =>
    simp only [List.takeWhile_cons] at h
    by_cases hc : p c = true
    · simp [hc] at h
    · simp only [Bool.not_eq_true] at hc
      simp [List.dropWhile_cons, hc]

theorem span1_split {p : Char → Bool} (l1 l2 : List Char)
    (h1 : ∀ c ∈ l1, p c = true) (hne : l1 ≠ []) (h2 : l2.takeWhile p = []) :
    span1 p (l1 ++ l2) = some (l1, l2) := by
  have ht : (l1 ++ l2).takeWhile p = l1 := by
    rw [takeWhile_append_of_all l1 l2 h1, h2, List.append_nil]
  have hd : (l1 ++ l2).dropWhile p = l2 := by
    rw [dropWhile_append_of_all l1 l2 h1, dropWhile_eq_self_of_takeWhile_nil h2]
  simp only [span1, ht, hd, List.isEmpty_iff]
  rw [if_neg hne]

theorem span1_all {p : Char → Bool} (l : List Char)
    (h1 : ∀ c ∈ l, p c = true) (hne : l ≠ []) : span1 p l = some (l, []) := by
  have := span1_split l [] h1 hne rfl
  simpa using this

theorem pyDigit_not_space {c : Char} (h : pyDigit c = true) : pySpace c = false := by
  simp only [pyDigit, Bool.and_eq_true, decide_eq_true_eq] at h
  cases hs : pySpace c
  · rfl
  · exfalso
    simp only [pySpace, Bool.or_eq_true, decide_eq_true_eq] at hs
    have h32 : (' ' : Char).toNat = 32 := rfl
    have h9 : ('\t' : Char).toNat = 9 := rfl
    have h10 : ('\n' : Char).toNat = 10 := rfl
    have h13 : ('\x0d' : Char).toNat = 13 := rfl
    have h11 : ('\x0b' : Char).toNat = 11 := rfl
    have h12 : ('\x0c' : Char).toNat = 12 := rfl
    rcases hs with ((((rfl | rfl) | rfl) | rfl) | rfl) | rfl <;> omega

theorem renderNat_head (n : ℕ) :
    ∃ c t, renderNat n = c :: t ∧ pyDigit c = true := by
  cases h : renderNat n with
  | nil => exact absurd h (renderNat_ne_nil n)
  | cons c t =>
    exact ⟨c, t, rfl, pyDigit_renderNat n c (h ▸ List.mem_cons_self c t)⟩

theorem renderNat_reverse_head (n : ℕ) :
    ∃ c t, (renderNat n).reverse = c :: t ∧ pyDigit c = true := by
  cases h : (renderNat n).reverse with
  | nil =>
    exact absurd (by simpa using congrArg List.reverse h) (renderNat_ne_nil n)
  | cons c t =>
    refine ⟨c, t, rfl, pyDigit_renderNat n c ?_⟩
    have : c ∈ (renderNat n).reverse := h ▸ List.mem_cons_self c t
    simpa using this

theorem takeWhile_pySpace_renderNat_append (n : ℕ) (r : List Char) :
    ((renderNat n ++ r).takeWhile pySpace) = [] := by
  obtain ⟨c, t, hct, hd⟩ := renderNat_head n
  rw [hct, List.cons_append, List.takeWhile_cons, pyDigit_not_space hd]
  simp

theorem takeWhile_pySpace_renderNat (n : ℕ) :
    ((renderNat n).takeWhile pySpace) = [] := by
  have := takeWhile_pySpace_renderNat_append n []
  simpa using this

theorem span1_digit_renderNat (n : ℕ) (r : List Char)
    (hr : r.takeWhile pyDigit = []) :
    span1 pyDigit (renderNat n ++ r) = some (renderNat n, r) :=
  span1_split (renderNat n) r (pyDigit_renderNat n) (renderNat_ne_nil n) hr

theorem pyStrip_eq_self {l : List Char} (h1 : l.takeWhile pySpace = [])
    (h2 : l.reverse.takeWhile pySpace = []) : pyStrip l = l := by
  simp [pyStrip, dropWhile_eq_self_of_takeWhile_nil h1,
    dropWhile_eq_self_of_takeWhile_nil h2]

end Rawtools

namespace Rawtools

/-- Line 2 of `write`'s output. -/
def resLine (x y z : ℕ) : List Char :=
  "Resolution:     ".toList ++
    (renderNat x ++ (' ' :: (renderNat y ++ (' ' :: renderNat z))))

/-- Line 3 of `write`'s output. -/
def thickLine (t1 t2 t3 : Decimal) : List Char :=
  "SliceThickness: ".toList ++
    (pyFloatRepr t1 ++ (' ' :: (pyFloatRepr t2 ++ (' ' :: pyFloatRepr t3))))

theorem span1_five_spaces (T : List Char) (hT : T.takeWhile pySpace = []) :
    span1 pySpace (' ' :: ' ' :: ' ' :: ' ' :: ' ' :: T) =
      some ([' ', ' ', ' ', ' ', ' '], T) := by
  have := span1_split [' ', ' ', ' ', ' ', ' '] T (by decide) (by decide) hT
  simpa using this

theorem span1_one_space (T : List Char) (hT : T.takeWhile pySpace = []) :
    span1 pySpace (' ' :: T) = some ([' '], T) := by
  have := span1_split [' '] T (by decide) (by decide) hT
  simpa using this

theorem parse_resolution_nsi_resLine (x y z : ℕ) :
    parse_resolution_nsi (resLine x y z) = some (x, y, z) := by
  have hmatch : (matchLit "resolution:".toList ((resLine x y z).dropWhile pySpace)) =
      some (' ' :: ' ' :: ' ' :: ' ' :: ' ' ::
        (renderNat x ++ (' ' :: (renderNat y ++ (' ' :: renderNat z))))) := rfl
  have hsp1 := span1_five_spaces (renderNat x ++ (' ' :: (renderNat y ++ (' ' :: renderNat z))))
    (takeWhile_pySpace_renderNat_append x _)
  have hd1 := span1_digit_renderNat x (' ' :: (renderNat y ++ (' ' :: renderNat z))) rfl
  have hsp2 := span1_one_space (renderNat y ++ (' ' :: renderNat z))
    (takeWhile_pySpace_renderNat_append y _)
  have hd2 := span1_digit_renderNat y (' ' :: renderNat z) rfl
  have hsp3 := span1_one_space (renderNat z) (takeWhile_pySpace_renderNat z)
  have hd3 := span1_all (renderNat z) (pyDigit_renderNat z) (renderNat_ne_nil z)
  simp only [parse_resolution_nsi, hmatch, Option.some_bind, hsp1, hd1, hsp2, hd2,
    hsp3, hd3, Option.map_some, Option.map_some', parseNat_renderNat]

theorem parse_resolution_resLine (x y z : ℕ) :
    parse_resolution (resLine x y z) "NSI" = some (x, y, z) := by
  simp only [parse_resolution, if_neg (by decide : ¬("NSI" : String) = "Dragonfly"),
    parse_resolution_nsi_resLine]

theorem parse_slice_thickness_resLine (x y z : ℕ) :
    parse_slice_thickness (resLine x y z) "NSI" = none := by
  have hw : span1 pyWord (resLine x y z) = some ("Resolution".toList,
      ':' :: ' ' :: ' ' :: ' ' :: ' ' :: ' ' ::
        (renderNat x ++ (' ' :: (renderNat y ++ (' ' :: renderNat z))))) := rfl
  have hsp1 := span1_five_spaces (renderNat x ++ (' ' :: (renderNat y ++ (' ' :: renderNat z))))
    (takeWhile_pySpace_renderNat_append x _)
  have hd1 := span1_digit_renderNat x (' ' :: (renderNat y ++ (' ' :: renderNat z))) rfl
  simp only [parse_slice_thickness, if_neg (by decide : ¬("NSI" : String) = "Dragonfly"),
    parse_slice_thickness_nsi, hw, Option.some_bind, hsp1, parse_decimal, hd1]
  rfl

theorem pyStrip_resLine (x y z : ℕ) : pyStrip (resLine x y z) = resLine x y z := by
  refine pyStrip_eq_self rfl ?_
  obtain ⟨c, t, hct, hd⟩ := renderNat_reverse_head z
  have hrev : (resLine x y z).reverse =
      (renderNat z).reverse ++
        (' ' :: ((renderNat y).reverse ++ ' ' :: ((renderNat x).reverse ++
          ("Resolution:     ".toList).reverse))) := by
    simp [resLine, List.reverse_append, List.reverse_cons, List.append_assoc]
  rw [hrev, hct, List.cons_append, List.takeWhile_cons, pyDigit_not_space hd]
  simp

theorem readLine_resLine (st : DatState) (h : st.dialect = "NSI") (x y z : ℕ) :
    readLine st (resLine x y z) = { st with dimensions := some (x, y, z) } := by
  have hdrg : is_dragonfly_dat_format (resLine x y z) = false := rfl
  have hofn : parse_object_filename (resLine x y z) "NSI" = none := rfl
  have hfmt : parse_format (resLine x y z) "NSI" = none := rfl
  have hmdl : parse_object_model (resLine x y z) "NSI" = none := rfl
  simp only [readLine, pyStrip_resLine, hdrg, Bool.false_eq_true, if_false, h, hofn,
    parse_resolution_resLine, parse_slice_thickness_resLine, hfmt, hmdl]

end Rawtools
